import Mathlib

/-!
# base/debug/stack_trace_posix.cc

A shallow embedding of the stack-trace rendering code of
`base/debug/stack_trace_posix.cc`, and theorems about it.

* `std::string` is a `List Char` (one `Char` per `char`).
* Addresses (`void*`) are natural numbers.
* The platform facilities the file calls (`abi::__cxa_demangle`,
  `google::Symbolize`, `backtrace_symbols`, `safe_strerror(errno)`, the `%p`
  conversion of `StringPrintf`) are parameters.
* Preprocessor symbols (`ANDROID`, `USE_SYMBOLIZE`, `__GLIBCXX__`) are booleans.
-/

namespace StackTracePosix

set_option maxRecDepth 100000

/-! ## The `std::string` members used by the file -/

namespace StdString

/-- Index of the first occurrence of `pat` in `l`, counted from the head of `l`. -/
def findFrom (pat : List Char) : List Char → Option Nat
  | [] => if pat = [] then some 0 else none
  | c :: cs =>
    if pat.isPrefixOf (c :: cs) then some 0 else (findFrom pat cs).map (· + 1)

/-- The member `std::string::find(const char* s, size_type pos)`: the least index
`i ≥ pos` at which `s` occurs in `text`; `none` is `npos`. -/
def find (text pat : List Char) (pos : Nat) : Option Nat :=
  if pos ≤ text.length then (findFrom pat (text.drop pos)).map (· + pos) else none

/-- Index of the first element of `l` that is not in `chars`, counted from the head. -/
def firstNotOf (chars : List Char) : List Char → Option Nat
  | [] => none
  | c :: cs => if c ∈ chars then (firstNotOf chars cs).map (· + 1) else some 0

/-- The member `std::string::find_first_not_of(const char* s, size_type pos)`: the
least index `i ≥ pos` with `text[i]` not among the characters of `s`; `none` is `npos`. -/
def find_first_not_of (text chars : List Char) (pos : Nat) : Option Nat :=
  (firstNotOf chars (text.drop pos)).map (· + pos)

/-- The member `std::string::substr(pos, n)`. -/
def substr (text : List Char) (pos n : Nat) : List Char :=
  (text.drop pos).take n

/-- The member `std::string::erase(pos, n)`. -/
def erase (text : List Char) (pos n : Nat) : List Char :=
  text.take pos ++ text.drop (pos + n)

/-- The member `std::string::insert(pos, s)`. -/
def insert (text : List Char) (pos : Nat) (s : List Char) : List Char :=
  text.take pos ++ s ++ text.drop pos

end StdString

/-! ## Constants -/

/-- The prefix used for mangled symbols, per the Itanium C++ ABI. -/
def kMangledSymbolPrefix : List Char := ['_', 'Z']

/-- Characters that can be used for symbols. -/
def kSymbolCharacters : List Char :=
  "abcdefghijklmnopqrstuvwxyzABCDEFGHIJKLMNOPQRSTUVWXYZ0123456789_".toList

/-! ## `DemangleSymbols` -/

/-- The demangler `abi::__cxa_demangle(name, NULL, 0, &status)`: `some d` is
`status == 0` with the returned C string `d`, `none` is any other status. -/
abbrev Demangler := List Char → Option (List Char)

/-- The variables of the `while` loop of `DemangleSymbols`: the string being
rewritten and `search_from`. The field `calls` is a ghost variable: the arguments
`abi::__cxa_demangle` has been called with so far, oldest first. -/
structure LoopState where
  text : List Char
  search_from : Nat
  calls : List (List Char)
deriving DecidableEq, Repr

/-- One pass through the `while` loop of `DemangleSymbols`, the loop test included.
`none` means the loop is left (the test is false, or `break`). -/
def DemangleSymbols.step (cxa_demangle : Demangler) (st : LoopState) : Option LoopState :=
  if st.search_from < st.text.length then
    -- Look for the start of a mangled symbol, from search_from.
    match StdString.find st.text kMangledSymbolPrefix st.search_from with
    | none => none
    | some mangled_start =>
      -- Look for the end of the mangled symbol.
      let mangled_end :=
        match StdString.find_first_not_of st.text kSymbolCharacters mangled_start with
        | none => st.text.length
        | some e => e
      let mangled_symbol := StdString.substr st.text mangled_start (mangled_end - mangled_start)
      -- Try to demangle the mangled symbol candidate.
      match cxa_demangle mangled_symbol with
      | some demangled_symbol =>
        some
          { text := StdString.insert
              (StdString.erase st.text mangled_start (mangled_end - mangled_start))
              mangled_start demangled_symbol
            search_from := mangled_start + demangled_symbol.length
            calls := st.calls ++ [mangled_symbol] }
      | none =>
        some
          { text := st.text
            search_from := mangled_start + 2
            calls := st.calls ++ [mangled_symbol] }
  else none

/-- The `while` loop of `DemangleSymbols`, run for at most `fuel` passes. -/
def DemangleSymbols.loop (cxa_demangle : Demangler) : Nat → LoopState → LoopState
  | 0, st => st
  | fuel + 1, st =>
    match DemangleSymbols.step cxa_demangle st with
    | none => st
    | some st1 => DemangleSymbols.loop cxa_demangle fuel st1

/-- The state in which the `while` loop of `DemangleSymbols` ends on `text`. Every
pass lowers `text.size() - search_from`, which starts at `text.size()`, so
`text.length` passes are enough (`DemangleSymbols.run_exits`). -/
def DemangleSymbols.run (cxa_demangle : Demangler) (text : List Char) : LoopState :=
  DemangleSymbols.loop cxa_demangle text.length { text := text, search_from := 0, calls := [] }

/-- The function `void DemangleSymbols(std::string* text)`: the value of `*text` on
return. The body is compiled only when `__GLIBCXX__` is defined. -/
def DemangleSymbols (glibcxx : Bool) (cxa_demangle : Demangler) (text : List Char) : List Char :=
  if glibcxx then (DemangleSymbols.run cxa_demangle text).text else text

/-- The arguments `DemangleSymbols` passes to `abi::__cxa_demangle`, in call order. -/
def DemangleSymbols.candidates (glibcxx : Bool) (cxa_demangle : Demangler) (text : List Char) :
    List (List Char) :=
  if glibcxx then (DemangleSymbols.run cxa_demangle text).calls else []

/-- The loop state `st` of a text, seen from a longer text that has `p` in front of
it and from a call log that already holds `cs`. -/
def LoopState.shift (p : List Char) (cs : List (List Char)) (st : LoopState) : LoopState :=
  { text := p ++ st.text, search_from := p.length + st.search_from, calls := cs ++ st.calls }

/-- A region of a text that `DemangleSymbols` replaces: the candidate, the text the
demangler gives for it, and the unmatched text between it and the next such region
(or the end). -/
structure Segment where
  candidate : List Char
  demangled : List Char
  unmatched : List Char
deriving DecidableEq, Repr

/-- The text `c1 ++ u1 ++ ... ++ cn ++ un` of a list of segments. -/
def Segment.before : List Segment → List Char
  | [] => []
  | s :: ss => s.candidate ++ s.unmatched ++ Segment.before ss

/-- The text `d1 ++ u1 ++ ... ++ dn ++ un` of a list of segments. -/
def Segment.after : List Segment → List Char
  | [] => []
  | s :: ss => s.demangled ++ s.unmatched ++ Segment.after ss

/-! ## `GetBacktraceStrings` -/

/-- The preprocessor symbols the file tests. -/
structure Build where
  ANDROID : Bool
  USE_SYMBOLIZE : Bool
  GLIBCXX : Bool
deriving DecidableEq, Repr

/-- The platform facilities the file calls. -/
structure Platform where
  /-- Width of a pointer, in bits. -/
  pointer_bits : Nat
  /-- The demangler `abi::__cxa_demangle`. -/
  cxa_demangle : Demangler
  /-- The resolver `google::Symbolize(pc, out, out_size)`: `some s` is a return value
  of `true` with the C string `s` left in `out`; `none` is a return value of `false`. -/
  Symbolize : Nat → Option (List Char)
  /-- The batch resolver `backtrace_symbols(buffer, size)`: `none` is `NULL`, `some r`
  is an array whose entry `i` is the C string `r i`. -/
  backtrace_symbols : (Nat → Nat) → Int → Option (Nat → List Char)
  /-- Value of `errno` after `backtrace_symbols` returned `NULL`. -/
  errno : Int
  /-- The function `safe_strerror`. -/
  safe_strerror : Int → List Char
  /-- The text `StringPrintf("%p", a)` for an address `a`. -/
  format_p : Nat → List Char

/-- The pointer `static_cast<char *>(a) - 1`, in `bits`-bit pointer arithmetic. -/
def char_ptr_pred (bits : Nat) (a : Nat) : Nat :=
  (a + 2 ^ bits - 1) % 2 ^ bits

/-- What a call of `GetBacktraceStrings` leaves behind: the value returned, the
vector `*trace_strings` and the string `*error_message` (`none` when the caller
passed `NULL`). -/
structure BacktraceStrings where
  symbolized : Bool
  trace_strings : List (List Char)
  error_message : Option (List Char)
deriving DecidableEq, Repr

/-- One pass through the `for` loop of the `USE_SYMBOLIZE` branch of
`GetBacktraceStrings`, at index `i`; `acc` holds `*trace_strings` and `symbolized`. -/
def GetBacktraceStrings.symbolize_pass (P : Platform) (trace : Nat → Nat)
    (acc : List (List Char) × Bool) (i : Nat) : List (List Char) × Bool :=
  -- Subtract by one as return address of function may be in the next function.
  match P.Symbolize (char_ptr_pred P.pointer_bits (trace i)) with
  | some symbol =>
    -- StringPrintf("%s [%p]", symbol, trace[i])
    (acc.1 ++ [symbol ++ [' ', '['] ++ P.format_p (trace i) ++ [']']], true)
  | none =>
    -- StringPrintf("%p", trace[i])
    (acc.1 ++ [P.format_p (trace i)], acc.2)

/-- The function `bool GetBacktraceStrings(void **trace, int size,
std::vector<std::string>* trace_strings, std::string* error_message)`. The array
`trace` is read by index; `trace_strings` and `error_message` are the contents of
the two out-parameters on entry. A loop `for (int i = 0; i < size; ++i)` is a fold
over `List.range size.toNat`. -/
def GetBacktraceStrings (B : Build) (P : Platform) (trace : Nat → Nat) (size : Int)
    (trace_strings : List (List Char)) (error_message : Option (List Char)) :
    BacktraceStrings :=
  if B.ANDROID then
    { symbolized := false, trace_strings := trace_strings, error_message := error_message }
  else if B.USE_SYMBOLIZE then
    let r := (List.range size.toNat).foldl (GetBacktraceStrings.symbolize_pass P trace)
      (trace_strings, false)
    { symbolized := r.2, trace_strings := r.1, error_message := error_message }
  else
    match P.backtrace_symbols trace size with
    | some trace_symbols =>
      { symbolized := true
        trace_strings := (List.range size.toNat).foldl
          (fun acc i => acc ++ [DemangleSymbols B.GLIBCXX P.cxa_demangle (trace_symbols i)])
          trace_strings
        error_message := error_message }
    | none =>
      { symbolized := false
        trace_strings := (List.range size.toNat).foldl
          (fun acc i => acc ++ [P.format_p (trace i)]) trace_strings
        error_message := error_message.map (fun _ => P.safe_strerror P.errno) }

/-! ## The class `StackTrace` -/

/-- The data members of `StackTrace`: the array `trace_`, read by index, and `count_`. -/
structure StackTrace where
  trace_ : Nat → Nat
  count_ : Int

/-- The unwind facility of the platform, and the tests the member functions make
before they use it. -/
structure Unwinder where
  /-- The test `defined(OS_MACOSX) && MAC_OS_X_VERSION_MIN_REQUIRED <
  MAC_OS_X_VERSION_10_5`. -/
  MAC_PRE_10_5 : Bool
  /-- The test `backtrace == NULL` on the weakly linked function. -/
  backtrace_null : Bool
  /-- The test `backtrace_symbols_fd == NULL`. -/
  backtrace_symbols_fd_null : Bool
  /-- The test `backtrace_symbols == NULL`. -/
  backtrace_symbols_null : Bool
  /-- The capture primitive `backtrace(buffer, size)`: from the contents of the buffer
  on entry and `size`, the contents of the buffer on return and the value returned. -/
  backtrace : (Nat → Nat) → Int → (Nat → Nat) × Int

/-- The constructor `StackTrace::StackTrace()`. It has no initializer list: `storage`
is what the memory of the object holds when the body starts, and `kMaxTraces` is
`arraysize(trace_)`. -/
def StackTrace.ctor (B : Build) (U : Unwinder) (kMaxTraces : Nat)
    (storage : StackTrace) : StackTrace :=
  if B.ANDROID then
    storage
  else if U.MAC_PRE_10_5 && U.backtrace_null then
    { trace_ := storage.trace_, count_ := 0 }
  else
    -- Though the backtrace API man page does not list any possible negative
    -- return values, we take no chance.
    let r := U.backtrace storage.trace_ kMaxTraces
    { trace_ := r.1, count_ := max r.2 0 }

/-- What a member function that writes to a stream leaves behind: the object, and
the contents of the stream. -/
structure Rendered where
  self : StackTrace
  stream : List Char

/-- The loop `for (i = 0; i < trace_strings.size(); ++i) os << "\t" <<
trace_strings[i] << "\n"` that ends `PrintBacktrace` and `OutputToStream`. -/
def StackTrace.write_lines (os : List Char) (trace_strings : List (List Char)) : List Char :=
  trace_strings.foldl (fun o s => o ++ ['\t'] ++ s ++ ['\n']) os

/-- The member `void StackTrace::PrintBacktrace()`; `cerr` is what has been written
to the standard error stream on entry. -/
def StackTrace.PrintBacktrace (B : Build) (U : Unwinder) (P : Platform) (self : StackTrace)
    (cerr : List Char) : Rendered :=
  if B.ANDROID then
    { self := self, stream := cerr }
  else if U.MAC_PRE_10_5 && U.backtrace_symbols_fd_null then
    { self := self, stream := cerr }
  else
    let r := GetBacktraceStrings B P self.trace_ self.count_ [] none
    { self := self, stream := StackTrace.write_lines cerr r.trace_strings }

/-- The member `void StackTrace::OutputToStream(std::ostream* os)`; `os` is what has
been written to the stream on entry. -/
def StackTrace.OutputToStream (B : Build) (U : Unwinder) (P : Platform) (self : StackTrace)
    (os : List Char) : Rendered :=
  if B.ANDROID then
    { self := self, stream := os }
  else if U.MAC_PRE_10_5 && U.backtrace_symbols_null then
    { self := self, stream := os }
  else
    -- std::vector<std::string> trace_strings; std::string error_message;
    let r := GetBacktraceStrings B P self.trace_ self.count_ [] (some [])
    let os1 :=
      if r.symbolized then
        os ++ "Backtrace:\n".toList
      else
        let error_message := r.error_message.getD []
        let error_message :=
          if error_message ≠ [] then " (".toList ++ error_message ++ ")".toList
          else error_message
        os ++ "Unable to get symbols for backtrace".toList ++ error_message ++ ". ".toList
          ++ "Dumping raw addresses in trace:\n".toList
    { self := self, stream := StackTrace.write_lines os1 r.trace_strings }

/-! ## Sample demanglers -/

/-- A demangler that knows the one name of the example in the source comment. -/
def demangleStackTrace : Demangler := fun s =>
  if s = "_ZN10StackTraceC1Ev".toList then some "StackTrace::StackTrace()".toList else none

/-- A demangler whose output for `_ZA` is itself a mangled name it knows. -/
def demangleAB : Demangler := fun s =>
  if s = "_ZA".toList then some "_ZB".toList
  else if s = "_ZB".toList then some "X".toList
  else none

/-- A demangler that knows the names of the constructors of `A` and of `B`, and
nothing else. -/
def demangleCtors : Demangler := fun s =>
  if s = "_ZN1AC1Ev".toList then some "A::A()".toList
  else if s = "_ZN1BC1Ev".toList then some "B::B()".toList
  else none

/-- A demangler that fails on every name. -/
def demangleNothing : Demangler := fun _ => none

/-! ## Sample platforms -/

/-- A build with the generic strategy: `backtrace_symbols` and `DemangleSymbols`. -/
def buildGeneric : Build where
  ANDROID := false
  USE_SYMBOLIZE := false
  GLIBCXX := true

/-- A build with the preferred resolver, `google::Symbolize`. -/
def buildSymbolize : Build where
  ANDROID := false
  USE_SYMBOLIZE := true
  GLIBCXX := true

/-- A `%p` conversion in the style of glibc. -/
def formatHex (a : Nat) : List Char :=
  if a = 0 then "(nil)".toList else "0x".toList ++ Nat.toDigits 16 a

/-- A captured trace of two return addresses. -/
def sampleTrace : Nat → Nat := fun i => if i = 0 then 0x817778c else 0x8177790

/-- A platform on which `backtrace_symbols` fails for lack of memory. -/
def platformNoMemory : Platform where
  pointer_bits := 32
  cxa_demangle := demangleStackTrace
  Symbolize := fun _ => none
  backtrace_symbols := fun _ _ => none
  errno := 12
  safe_strerror := fun e =>
    if e = 12 then "Cannot allocate memory".toList else "Unknown error".toList
  format_p := formatHex

/-- A platform on which `backtrace_symbols` gives, for every address, a line that
names the constructor of `StackTrace`, and `google::Symbolize` knows the function
that holds `0x817778b` only. -/
def platformResolving : Platform where
  pointer_bits := 32
  cxa_demangle := demangleStackTrace
  Symbolize := fun pc => if pc = 0x817778b then some "StackTrace::StackTrace()".toList else none
  backtrace_symbols := fun trace _ =>
    some (fun i => "app(_ZN10StackTraceC1Ev+0x20) [".toList ++ formatHex (trace i) ++ [']'])
  errno := 0
  safe_strerror := fun _ => "Success".toList
  format_p := formatHex

/-- A platform whose `google::Symbolize` returns `true` and leaves an empty string
in the buffer. -/
def platformEmptySymbol : Platform where
  pointer_bits := 32
  cxa_demangle := demangleNothing
  Symbolize := fun _ => some []
  backtrace_symbols := fun _ _ => none
  errno := 0
  safe_strerror := fun _ => "Success".toList
  format_p := formatHex

/-! ## Sample unwinders and objects -/

/-- A build for Android. -/
def buildAndroid : Build where
  ANDROID := true
  USE_SYMBOLIZE := false
  GLIBCXX := true

/-- An unwinder that is present and reports `r` frames, leaving the buffer as it is. -/
def unwinderReturning (r : Int) : Unwinder where
  MAC_PRE_10_5 := false
  backtrace_null := false
  backtrace_symbols_fd_null := false
  backtrace_symbols_null := false
  backtrace := fun buffer _ => (buffer, r)

/-- The unwinder of a build for Mac OS X before 10.5 that runs where `backtrace` and
its companions are missing. -/
def unwinderMissing : Unwinder where
  MAC_PRE_10_5 := true
  backtrace_null := true
  backtrace_symbols_fd_null := true
  backtrace_symbols_null := true
  backtrace := fun buffer _ => (buffer, 0)

/-- An object that holds the two addresses of `sampleTrace`. -/
def sampleStackTrace : StackTrace where
  trace_ := sampleTrace
  count_ := 2

/-- Memory that holds `7` where `count_` is going to be. -/
def sampleStorage : StackTrace where
  trace_ := fun _ => 0
  count_ := 7

/-! ## Facts about the string members -/

namespace StdString

theorem findFrom_some (pat : List Char) :
    ∀ (l : List Char) (i : Nat), findFrom pat l = some i →
      i ≤ l.length ∧ pat <+: l.drop i ∧ ∀ j, j < i → ¬ pat <+: l.drop j := by
  intro l
  induction l with
  | nil =>
    intro i h
    unfold findFrom at h
    split at h
    · next hp =>
      cases h
      subst hp
      simp
    · cases h
  | cons c cs ih =>
    intro i h
    unfold findFrom at h
    split at h
    · next hp =>
      cases h
      refine ⟨Nat.zero_le _, ?_, ?_⟩
      · simpa using List.isPrefixOf_iff_prefix.mp hp
      · intro j hj
        omega
    · next hp =>
      cases hk : findFrom pat cs with
      | none => simp [hk] at h
      | some k =>
        simp only [hk, Option.map_some', Option.some.injEq] at h
        subst h
        obtain ⟨h1, h2, h3⟩ := ih k hk
        refine ⟨by simpa using h1, by simpa using h2, ?_⟩
        intro j hj
        cases j with
        | zero =>
          intro hpre
          exact hp (List.isPrefixOf_iff_prefix.mpr (by simpa using hpre))
        | succ j =>
          simpa using h3 j (by omega)

theorem findFrom_none (pat : List Char) :
    ∀ (l : List Char), findFrom pat l = none → ∀ j, ¬ pat <+: l.drop j := by
  intro l
  induction l with
  | nil =>
    intro h j
    unfold findFrom at h
    split at h
    · cases h
    · next hp =>
      simpa using hp
  | cons c cs ih =>
    intro h j
    unfold findFrom at h
    split at h
    · cases h
    · next hp =>
      cases hk : findFrom pat cs with
      | some k => simp [hk] at h
      | none =>
        cases j with
        | zero =>
          intro hpre
          exact hp (List.isPrefixOf_iff_prefix.mpr (by simpa using hpre))
        | succ j => simpa using ih hk j

theorem findFrom_eq_some_of (pat l : List Char) (i : Nat)
    (h2 : pat <+: l.drop i) (h3 : ∀ j, j < i → ¬ pat <+: l.drop j) :
    findFrom pat l = some i := by
  cases hk : findFrom pat l with
  | none => exact absurd h2 (findFrom_none pat l hk i)
  | some k =>
    obtain ⟨_, k2, k3⟩ := findFrom_some pat l k hk
    rcases Nat.lt_trichotomy k i with hlt | heq | hgt
    · exact absurd k2 (h3 k hlt)
    · rw [heq]
    · exact absurd h2 (k3 i hgt)

theorem find_some (text pat : List Char) (pos i : Nat) (h : find text pat pos = some i) :
    pos ≤ i ∧ i ≤ text.length ∧ pat <+: text.drop i ∧
      ∀ j, pos ≤ j → j < i → ¬ pat <+: text.drop j := by
  unfold find at h
  split at h
  · next hle =>
    cases hk : findFrom pat (text.drop pos) with
    | none => simp [hk] at h
    | some k =>
      simp only [hk, Option.map_some', Option.some.injEq] at h
      subst h
      obtain ⟨k1, k2, k3⟩ := findFrom_some pat _ k hk
      simp only [List.length_drop, List.drop_drop] at k1 k2 k3
      refine ⟨by omega, by omega, ?_, ?_⟩
      · rwa [Nat.add_comm] at k2
      · intro j hj1 hj2
        have := k3 (j - pos) (by omega)
        rwa [show pos + (j - pos) = j by omega] at this
  · cases h

theorem find_none (text pat : List Char) (pos : Nat) (hpos : pos ≤ text.length)
    (h : find text pat pos = none) : ∀ j, pos ≤ j → ¬ pat <+: text.drop j := by
  unfold find at h
  rw [if_pos hpos] at h
  cases hk : findFrom pat (text.drop pos) with
  | some k => simp [hk] at h
  | none =>
    intro j hj
    have := findFrom_none pat _ hk (j - pos)
    rwa [List.drop_drop, show pos + (j - pos) = j by omega] at this

theorem find_eq_some_of (text pat : List Char) (pos i : Nat) (h0 : pos ≤ i)
    (h1 : i ≤ text.length) (h2 : pat <+: text.drop i)
    (h3 : ∀ j, pos ≤ j → j < i → ¬ pat <+: text.drop j) :
    find text pat pos = some i := by
  unfold find
  rw [if_pos (by omega)]
  have := findFrom_eq_some_of pat (text.drop pos) (i - pos)
    (by rw [List.drop_drop, show pos + (i - pos) = i by omega]; exact h2)
    (by
      intro j hj
      rw [List.drop_drop]
      exact h3 (pos + j) (by omega) (by omega))
  rw [this]
  simp only [Option.map_some', Option.some.injEq]
  omega

theorem firstNotOf_append (chars m post : List Char) (hm : ∀ c ∈ m, c ∈ chars) :
    firstNotOf chars (m ++ post) = (firstNotOf chars post).map (· + m.length) := by
  induction m with
  | nil => simp
  | cons c cs ih =>
    have hc : c ∈ chars := hm c (List.mem_cons_self _ _)
    have hcs : ∀ x ∈ cs, x ∈ chars := fun x hx => hm x (List.mem_cons_of_mem _ hx)
    rw [List.cons_append, firstNotOf, if_pos hc, ih hcs]
    cases firstNotOf chars post with
    | none => rfl
    | some k => simp only [Option.map_some', List.length_cons, Option.some.injEq]; omega

theorem firstNotOf_of_head (chars post : List Char) (hp : ∀ c ∈ post.head?, c ∉ chars) :
    firstNotOf chars post = if post = [] then none else some 0 := by
  cases post with
  | nil => simp [firstNotOf]
  | cons c cs =>
    have : c ∉ chars := hp c (by simp)
    simp [firstNotOf, this]

end StdString

/-! ## One pass of the loop -/

theorem prefix_length_le {m : List Char} (hm : kMangledSymbolPrefix <+: m) : 2 ≤ m.length := by
  have := hm.length_le
  simpa [kMangledSymbolPrefix] using this

/-- One pass on a text cut as `pre ++ m ++ post`, where the search finds `_Z` first
at the head of `m` and `m` is the run of symbol characters from there. -/
theorem DemangleSymbols.step_of_decomp (dm : Demangler) (pre m post : List Char) (s : Nat)
    (calls : List (List Char)) (hs : s ≤ pre.length) (hm : kMangledSymbolPrefix <+: m)
    (hfirst : ∀ j, s ≤ j → j < pre.length →
      ¬ kMangledSymbolPrefix <+: (pre ++ m ++ post).drop j)
    (hsym : ∀ c ∈ m, c ∈ kSymbolCharacters)
    (hpost : ∀ c ∈ post.head?, c ∉ kSymbolCharacters) :
    DemangleSymbols.step dm ⟨pre ++ m ++ post, s, calls⟩ =
      some (match dm m with
        | some d => ⟨pre ++ d ++ post, pre.length + d.length, calls ++ [m]⟩
        | none => ⟨pre ++ m ++ post, pre.length + 2, calls ++ [m]⟩) := by
  have hlen := prefix_length_le hm
  have hfind : StdString.find (pre ++ m ++ post) kMangledSymbolPrefix s = some pre.length := by
    apply StdString.find_eq_some_of _ _ _ _ hs
    · simp
    · rw [List.append_assoc, List.drop_left]
      exact hm.trans (List.prefix_append m post)
    · exact hfirst
  have hend : (match StdString.find_first_not_of (pre ++ m ++ post) kSymbolCharacters
        pre.length with
      | none => (pre ++ m ++ post).length
      | some e => e) = pre.length + m.length := by
    unfold StdString.find_first_not_of
    rw [List.append_assoc, List.drop_left, StdString.firstNotOf_append _ _ _ hsym,
      StdString.firstNotOf_of_head _ _ hpost]
    by_cases hp : post = []
    · subst hp
      simp
    · simp [hp, Nat.add_comm]
  have hsub : StdString.substr (pre ++ m ++ post) pre.length m.length = m := by
    unfold StdString.substr
    rw [List.append_assoc, List.drop_left, List.take_left]
  have hins : ∀ d : List Char, StdString.insert
      (StdString.erase (pre ++ m ++ post) pre.length m.length) pre.length d
        = pre ++ d ++ post := by
    intro d
    unfold StdString.insert StdString.erase
    have h1 : List.take pre.length (pre ++ m ++ post) = pre := by
      rw [List.append_assoc, List.take_left]
    have h2 : List.drop (pre.length + m.length) (pre ++ m ++ post) = post := by
      rw [← List.length_append, List.drop_left]
    rw [h1, h2, List.take_left, List.drop_left]
  unfold DemangleSymbols.step
  simp only []
  rw [if_pos (by simp only [List.length_append]; omega), hfind]
  simp only [hend, Nat.add_sub_cancel_left, hsub, hins]
  cases dm m <;> rfl

theorem DemangleSymbols.step_none_of (dm : Demangler) (st : LoopState)
    (h : st.text.length ≤ st.search_from ∨
      ∀ j, st.search_from ≤ j → ¬ kMangledSymbolPrefix <+: st.text.drop j) :
    DemangleSymbols.step dm st = none := by
  unfold DemangleSymbols.step
  split
  · next hlt =>
    cases hf : StdString.find st.text kMangledSymbolPrefix st.search_from with
    | none => rfl
    | some i =>
      exfalso
      obtain ⟨h1, _, h3, _⟩ := StdString.find_some _ _ _ _ hf
      rcases h with h | h
      · omega
      · exact h i h1 h3
  · rfl

theorem symbol_prefix_chars : ∀ c ∈ kMangledSymbolPrefix, c ∈ kSymbolCharacters := by
  decide

/-- Either the loop is left, or the text is cut as in `step_of_decomp`. -/
theorem DemangleSymbols.step_cases (dm : Demangler) (st : LoopState) :
    (DemangleSymbols.step dm st = none ∧
      (st.text.length ≤ st.search_from ∨
        ∀ j, st.search_from ≤ j → ¬ kMangledSymbolPrefix <+: st.text.drop j)) ∨
    ∃ pre m post, st.text = pre ++ m ++ post ∧ st.search_from ≤ pre.length ∧
      kMangledSymbolPrefix <+: m ∧
      (∀ j, st.search_from ≤ j → j < pre.length →
        ¬ kMangledSymbolPrefix <+: (pre ++ m ++ post).drop j) ∧
      (∀ c ∈ m, c ∈ kSymbolCharacters) ∧
      (∀ c ∈ post.head?, c ∉ kSymbolCharacters) := by
  by_cases hlt : st.search_from < st.text.length
  · cases hf : StdString.find st.text kMangledSymbolPrefix st.search_from with
    | none =>
      left
      have hno := StdString.find_none _ _ _ (Nat.le_of_lt hlt) hf
      exact ⟨DemangleSymbols.step_none_of dm st (Or.inr hno), Or.inr hno⟩
    | some i =>
      right
      obtain ⟨h1, h2, h3, h4⟩ := StdString.find_some _ _ _ _ hf
      let p : Char → Bool := fun c => decide (c ∈ kSymbolCharacters)
      have hcut : st.text = st.text.take i ++ (st.text.drop i).takeWhile p
          ++ (st.text.drop i).dropWhile p := by
        rw [List.append_assoc, List.takeWhile_append_dropWhile, List.take_append_drop]
      refine ⟨st.text.take i, (st.text.drop i).takeWhile p, (st.text.drop i).dropWhile p,
        hcut, ?_, ?_, ?_, ?_, ?_⟩
      · rw [List.length_take, Nat.min_eq_left h2]
        exact h1
      · obtain ⟨r, hr⟩ := h3
        rw [← hr, List.takeWhile_append_of_pos]
        · exact List.prefix_append _ _
        · intro c hc
          exact decide_eq_true (symbol_prefix_chars c hc)
      · intro j hj1 hj2
        rw [← hcut]
        rw [List.length_take, Nat.min_eq_left h2] at hj2
        exact h4 j hj1 hj2
      · intro c hc
        have hc2 : c ∈ List.takeWhile (fun a => decide (a ∈ kSymbolCharacters))
            (st.text.drop i) := hc
        have h5 := List.mem_takeWhile_imp hc2
        simpa using h5
      · intro c hc
        have := List.head?_dropWhile_not p (st.text.drop i)
        rw [Option.mem_def] at hc
        rw [hc] at this
        simpa [p] using this
  · left
    have hle : st.text.length ≤ st.search_from := Nat.le_of_not_lt hlt
    exact ⟨DemangleSymbols.step_none_of dm st (Or.inl hle), Or.inl hle⟩

/-- Every pass lowers `text.size() - search_from` by at least two. -/
theorem DemangleSymbols.step_measure (dm : Demangler) (st st1 : LoopState)
    (h : DemangleSymbols.step dm st = some st1) :
    st1.text.length - st1.search_from + 2 ≤ st.text.length - st.search_from := by
  rcases DemangleSymbols.step_cases dm st with ⟨hn, _⟩ | ⟨pre, m, post, ht, hs, hm, hf, hsym, hpost⟩
  · rw [hn] at h
    cases h
  · obtain ⟨t, s, cs⟩ := st
    simp only at ht hs hf
    subst ht
    rw [DemangleSymbols.step_of_decomp dm pre m post s cs hs hm hf hsym hpost] at h
    have hlen := prefix_length_le hm
    cases hd : dm m with
    | none =>
      rw [hd] at h
      simp only [Option.some.injEq] at h
      subst h
      simp only [List.length_append]
      omega
    | some d =>
      rw [hd] at h
      simp only [Option.some.injEq] at h
      subst h
      simp only [List.length_append]
      omega

theorem drop_append_ge (p t : List Char) (j : Nat) (hj : p.length ≤ j) :
    (p ++ t).drop j = t.drop (j - p.length) := by
  rw [List.drop_append_eq_append_drop, List.drop_eq_nil_of_le hj, List.nil_append]

/-- A pass does not look in front of `search_from`. -/
theorem DemangleSymbols.step_shift (dm : Demangler) (p : List Char) (cs : List (List Char))
    (st : LoopState) :
    DemangleSymbols.step dm (st.shift p cs) =
      (DemangleSymbols.step dm st).map (LoopState.shift p cs) := by
  rcases DemangleSymbols.step_cases dm st with ⟨hn, hc⟩ | ⟨pre, m, post, ht, hs, hm, hf, hsym, hpost⟩
  · rw [hn]
    apply DemangleSymbols.step_none_of
    simp only [LoopState.shift, List.length_append]
    rcases hc with hc | hc
    · left
      omega
    · right
      intro j hj
      rw [drop_append_ge p _ j (by omega)]
      exact hc _ (by omega)
  · obtain ⟨t, s, calls⟩ := st
    simp only at ht hs hf
    subst ht
    rw [DemangleSymbols.step_of_decomp dm pre m post s calls hs hm hf hsym hpost]
    have hL : LoopState.shift p cs ⟨pre ++ m ++ post, s, calls⟩ =
        ⟨(p ++ pre) ++ m ++ post, p.length + s, cs ++ calls⟩ := by
      simp [LoopState.shift]
    rw [hL, DemangleSymbols.step_of_decomp dm (p ++ pre) m post (p.length + s) (cs ++ calls)
      (by simp only [List.length_append]; omega) hm ?_ hsym hpost]
    · cases dm m <;> simp [LoopState.shift, Nat.add_assoc]
    · intro j hj1 hj2
      simp only [List.length_append] at hj2
      have hfj := hf (j - p.length) (by omega) (by omega)
      rw [List.append_assoc, List.append_assoc, drop_append_ge p _ j (by omega),
        ← List.append_assoc]
      exact hfj

theorem DemangleSymbols.loop_shift (dm : Demangler) (p : List Char) (cs : List (List Char)) :
    ∀ (fuel : Nat) (st : LoopState),
      DemangleSymbols.loop dm fuel (st.shift p cs) =
        (DemangleSymbols.loop dm fuel st).shift p cs := by
  intro fuel
  induction fuel with
  | zero => intro st; rfl
  | succ f ih =>
    intro st
    simp only [DemangleSymbols.loop]
    rw [DemangleSymbols.step_shift]
    cases DemangleSymbols.step dm st with
    | none => rfl
    | some st1 => exact ih st1

/-- More fuel than `text.size() - search_from` changes nothing. -/
theorem DemangleSymbols.loop_fuel_succ (dm : Demangler) :
    ∀ (fuel : Nat) (st : LoopState), st.text.length - st.search_from ≤ fuel →
      DemangleSymbols.loop dm (fuel + 1) st = DemangleSymbols.loop dm fuel st := by
  intro fuel
  induction fuel with
  | zero =>
    intro st h
    have := DemangleSymbols.step_none_of dm st (Or.inl (by omega))
    simp only [DemangleSymbols.loop, this]
  | succ f ih =>
    intro st h
    rw [DemangleSymbols.loop]
    conv => rhs; rw [DemangleSymbols.loop]
    cases hst : DemangleSymbols.step dm st with
    | none => rfl
    | some st1 =>
      have := DemangleSymbols.step_measure dm st st1 hst
      exact ih st1 (by omega)

theorem DemangleSymbols.loop_fuel_le (dm : Demangler) (st : LoopState) (f g : Nat)
    (h : st.text.length - st.search_from ≤ f) (hfg : f ≤ g) :
    DemangleSymbols.loop dm g st = DemangleSymbols.loop dm f st := by
  induction g with
  | zero =>
    have : f = 0 := by omega
    rw [this]
  | succ g ih =>
    by_cases hg : f = g + 1
    · rw [hg]
    · rw [DemangleSymbols.loop_fuel_succ dm g st (by omega)]
      exact ih (by omega)

/-- With fuel `text.size() - search_from` the loop is run to its end: in the state
returned, the next pass leaves the loop. -/
theorem DemangleSymbols.loop_exits (dm : Demangler) :
    ∀ (fuel : Nat) (st : LoopState), st.text.length - st.search_from ≤ fuel →
      DemangleSymbols.step dm (DemangleSymbols.loop dm fuel st) = none := by
  intro fuel
  induction fuel with
  | zero =>
    intro st h
    exact DemangleSymbols.step_none_of dm st (Or.inl (by omega))
  | succ f ih =>
    intro st h
    rw [DemangleSymbols.loop]
    cases hst : DemangleSymbols.step dm st with
    | none => exact hst
    | some st1 =>
      have := DemangleSymbols.step_measure dm st st1 hst
      exact ih st1 (by omega)

/-- The loop of `DemangleSymbols` ends: `run` returns a state in which the loop is left. -/
theorem DemangleSymbols.run_exits (dm : Demangler) (text : List Char) :
    DemangleSymbols.step dm (DemangleSymbols.run dm text) = none :=
  DemangleSymbols.loop_exits dm text.length _ (by simp)

/-! ## The whole loop -/

theorem DemangleSymbols.run_of_none (dm : Demangler) (t : List Char)
    (h : ∀ j, ¬ kMangledSymbolPrefix <+: t.drop j) :
    DemangleSymbols.run dm t = ⟨t, 0, []⟩ := by
  unfold DemangleSymbols.run
  cases t.length with
  | zero => rfl
  | succ n =>
    rw [DemangleSymbols.loop,
      DemangleSymbols.step_none_of dm ⟨t, 0, []⟩ (Or.inr (fun j _ => h j))]

theorem DemangleSymbols.loop_from (dm : Demangler) (p post : List Char)
    (cs : List (List Char)) (f : Nat) (hf : post.length ≤ f) :
    DemangleSymbols.loop dm f ⟨p ++ post, p.length, cs⟩ =
      (DemangleSymbols.run dm post).shift p cs := by
  have h0 : (⟨p ++ post, p.length, cs⟩ : LoopState) = LoopState.shift p cs ⟨post, 0, []⟩ := by
    simp [LoopState.shift]
  rw [h0, DemangleSymbols.loop_shift, DemangleSymbols.run,
    DemangleSymbols.loop_fuel_le dm ⟨post, 0, []⟩ post.length f (by simp) hf]

/-- The loop on a text cut as `pre ++ m ++ post`, where `_Z` occurs first at the head
of `m` and `m` is the run of symbol characters from there: after a successful
demangling the loop goes on with `post`, after a failed one with what follows `_Z`. -/
theorem DemangleSymbols.run_of_decomp (dm : Demangler) (pre m post : List Char)
    (hm : kMangledSymbolPrefix <+: m)
    (hfirst : ∀ j, j < pre.length → ¬ kMangledSymbolPrefix <+: (pre ++ m ++ post).drop j)
    (hsym : ∀ c ∈ m, c ∈ kSymbolCharacters)
    (hpost : ∀ c ∈ post.head?, c ∉ kSymbolCharacters) :
    DemangleSymbols.run dm (pre ++ m ++ post) =
      match dm m with
      | some d => (DemangleSymbols.run dm post).shift (pre ++ d) [m]
      | none =>
        (DemangleSymbols.run dm (m.drop 2 ++ post)).shift (pre ++ kMangledSymbolPrefix) [m] := by
  have hlen := prefix_length_le hm
  have hstep := DemangleSymbols.step_of_decomp dm pre m post 0 [] (Nat.zero_le _) hm
    (fun j _ hj => hfirst j hj) hsym hpost
  obtain ⟨n, hn⟩ : ∃ n, (pre ++ m ++ post).length = n + 1 :=
    ⟨(pre ++ m ++ post).length - 1, by simp only [List.length_append]; omega⟩
  have hrun : DemangleSymbols.run dm (pre ++ m ++ post) =
      DemangleSymbols.loop dm (n + 1) ⟨pre ++ m ++ post, 0, []⟩ := by
    rw [DemangleSymbols.run, hn]
  rw [hrun, DemangleSymbols.loop, hstep]
  simp only [List.length_append] at hn
  cases dm m with
  | some d =>
    simp only [List.nil_append]
    have := DemangleSymbols.loop_from dm (pre ++ d) post [m] n (by omega)
    simp only [List.length_append] at this
    exact this
  | none =>
    simp only [List.nil_append]
    have hm2 : m = kMangledSymbolPrefix ++ m.drop 2 := (List.prefix_iff_eq_append.mp hm).symm
    have := DemangleSymbols.loop_from dm (pre ++ kMangledSymbolPrefix) (m.drop 2 ++ post) [m] n
      (by simp only [List.length_append, List.length_drop]; omega)
    rw [List.append_assoc pre, ← List.append_assoc kMangledSymbolPrefix, ← hm2,
      ← List.append_assoc] at this
    simpa [kMangledSymbolPrefix] using this

/-- Every text either holds no `_Z`, or is cut as in `run_of_decomp`. -/
theorem DemangleSymbols.text_cases (t : List Char) :
    (∀ j, ¬ kMangledSymbolPrefix <+: t.drop j) ∨
    ∃ pre m post, t = pre ++ m ++ post ∧ kMangledSymbolPrefix <+: m ∧
      (∀ j, j < pre.length → ¬ kMangledSymbolPrefix <+: (pre ++ m ++ post).drop j) ∧
      (∀ c ∈ m, c ∈ kSymbolCharacters) ∧
      (∀ c ∈ post.head?, c ∉ kSymbolCharacters) := by
  rcases DemangleSymbols.step_cases (fun _ => none) ⟨t, 0, []⟩ with
    ⟨_, hc⟩ | ⟨pre, m, post, ht, _, hm, hf, hsym, hpost⟩
  · left
    rcases hc with hc | hc
    · have ht : t = [] := List.length_eq_zero.mp (Nat.le_zero.mp hc)
      subst ht
      intro j
      simp [kMangledSymbolPrefix]
    · exact fun j => hc j (Nat.zero_le _)
  · right
    exact ⟨pre, m, post, ht, hm, fun j hj => hf j (Nat.zero_le _) hj, hsym, hpost⟩

/-! ## Theorems about `DemangleSymbols` -/

theorem no_prefix_before (pre m post : List Char) (hm : kMangledSymbolPrefix <+: m)
    (hfirst : ∀ j, j < pre.length → ¬ kMangledSymbolPrefix <+: (pre ++ m).drop j) :
    ∀ j, j < pre.length → ¬ kMangledSymbolPrefix <+: (pre ++ m ++ post).drop j := by
  intro j hj hp
  have hlen := prefix_length_le hm
  apply hfirst j hj
  rw [List.drop_append_of_le_length (by simp only [List.length_append]; omega)] at hp
  refine List.prefix_of_prefix_length_le hp (List.prefix_append _ _) ?_
  simp only [List.length_drop, List.length_append, kMangledSymbolPrefix, List.length_cons,
    List.length_nil]
  omega

theorem no_prefix_of_bounded (t : List Char)
    (h : ∀ j, j < t.length → ¬ kMangledSymbolPrefix <+: t.drop j) :
    ∀ j, ¬ kMangledSymbolPrefix <+: t.drop j := by
  intro j
  by_cases hj : j < t.length
  · exact h j hj
  · rw [List.drop_eq_nil_of_le (Nat.le_of_not_lt hj)]
    simp [kMangledSymbolPrefix]

/-- C2: the demangled text that is inserted is not scanned again. When `_Z` occurs
in `pre ++ m` first at the head of `m`, `m` is the maximal run of symbol characters
from there (all of `m` is in the alphabet and `post` is empty or starts outside it),
and the demangler maps `m` to `d`, whatever `d` is, then
`DemangleSymbols(pre ++ m ++ post) = pre ++ d ++ DemangleSymbols(post)`. -/
theorem DemangleSymbols_inserted_not_rescanned (dm : Demangler) (pre m post d : List Char)
    (hm : kMangledSymbolPrefix <+: m)
    (hfirst : ∀ j, j < pre.length → ¬ kMangledSymbolPrefix <+: (pre ++ m).drop j)
    (hsym : ∀ c ∈ m, c ∈ kSymbolCharacters)
    (hpost : ∀ c ∈ post.head?, c ∉ kSymbolCharacters)
    (hd : dm m = some d) :
    DemangleSymbols true dm (pre ++ m ++ post) = pre ++ d ++ DemangleSymbols true dm post := by
  have h := DemangleSymbols.run_of_decomp dm pre m post hm
    (no_prefix_before pre m post hm hfirst) hsym hpost
  rw [hd] at h
  simp only [DemangleSymbols, if_true, h, LoopState.shift]

/-- C2, at `_ZA` with a demangler that maps `_ZA` to `_ZB` and `_ZB` to `X`: the
result is `_ZB`, not `X`. -/
theorem DemangleSymbols_inserted_not_rescanned_witness :
    DemangleSymbols true demangleAB "_ZA".toList = "_ZB".toList ∧
    demangleAB "_ZB".toList = some "X".toList :=
  ⟨DemangleSymbols_inserted_not_rescanned demangleAB [] "_ZA".toList [] "_ZB".toList
      (by decide) (by decide) (by decide) (by decide) (by decide),
    by decide⟩

/-- C1: one mangled symbol is replaced in place. When the first `_Z` of the text
`pre ++ m ++ post` is at the head of `m`, `m` is the maximal run of symbol characters
from there, the demangler maps `m` to `d`, and `post` holds no `_Z`, the result is
`pre ++ d ++ post`. -/
theorem DemangleSymbols_single_symbol (dm : Demangler) (pre m post d : List Char)
    (hm : kMangledSymbolPrefix <+: m)
    (hfirst : ∀ j, j < pre.length → ¬ kMangledSymbolPrefix <+: (pre ++ m ++ post).drop j)
    (hsym : ∀ c ∈ m, c ∈ kSymbolCharacters)
    (hpost : ∀ c ∈ post.head?, c ∉ kSymbolCharacters)
    (hd : dm m = some d)
    (hrest : ∀ j, j < post.length → ¬ kMangledSymbolPrefix <+: post.drop j) :
    DemangleSymbols true dm (pre ++ m ++ post) = pre ++ d ++ post := by
  have h := DemangleSymbols.run_of_decomp dm pre m post hm hfirst hsym hpost
  rw [hd, DemangleSymbols.run_of_none dm post (no_prefix_of_bounded post hrest)] at h
  simp only [DemangleSymbols, if_true, h, LoopState.shift]

/-- C1, at the line of the comment in the source: `app(_ZN10StackTraceC1Ev+0x20)
[0x817778c]` becomes `app(StackTrace::StackTrace()+0x20) [0x817778c]`. -/
theorem DemangleSymbols_single_symbol_witness :
    DemangleSymbols true demangleStackTrace
        ("app(".toList ++ "_ZN10StackTraceC1Ev".toList ++ "+0x20) [0x817778c]".toList) =
      "app(".toList ++ "StackTrace::StackTrace()".toList ++ "+0x20) [0x817778c]".toList :=
  DemangleSymbols_single_symbol demangleStackTrace "app(".toList "_ZN10StackTraceC1Ev".toList
    "+0x20) [0x817778c]".toList "StackTrace::StackTrace()".toList
    (by decide) (by decide) (by decide) (by decide) (by decide) (by decide)

theorem DemangleSymbols.run_text_of_all_fail (dm : Demangler) :
    ∀ (n : Nat) (t : List Char), t.length ≤ n →
      (∀ c ∈ (DemangleSymbols.run dm t).calls, dm c = none) →
      (DemangleSymbols.run dm t).text = t := by
  intro n
  induction n with
  | zero =>
    intro t ht _
    have : t = [] := List.length_eq_zero.mp (Nat.le_zero.mp ht)
    subst this
    rfl
  | succ n ih =>
    intro t ht hall
    rcases DemangleSymbols.text_cases t with hno | ⟨pre, m, post, hcut, hm, hf, hsym, hpost⟩
    · rw [DemangleSymbols.run_of_none dm t hno]
    · subst hcut
      have hlen := prefix_length_le hm
      have h := DemangleSymbols.run_of_decomp dm pre m post hm hf hsym hpost
      cases hd : dm m with
      | some d =>
        rw [hd] at h
        have := hall m (by rw [h]; simp [LoopState.shift])
        rw [hd] at this
        cases this
      | none =>
        rw [hd] at h
        simp only at h
        rw [h] at hall ⊢
        simp only [LoopState.shift, List.mem_append] at hall ⊢
        rw [ih (m.drop 2 ++ post)
          (by simp only [List.length_append, List.length_drop] at ht ⊢; omega)
          (fun c hc => hall c (Or.inr hc))]
        have hm2 : kMangledSymbolPrefix ++ m.drop 2 = m := List.prefix_iff_eq_append.mp hm
        rw [List.append_assoc pre, ← List.append_assoc kMangledSymbolPrefix, hm2,
          ← List.append_assoc]

/-- C3: when the demangler fails on every candidate that `DemangleSymbols` passes to
it (so also when it is passed none, the text holding no `_Z`), the text is left as
it was. -/
theorem DemangleSymbols_failure_preserves_text (glibcxx : Bool) (dm : Demangler)
    (text : List Char)
    (h : ∀ c ∈ DemangleSymbols.candidates glibcxx dm text, dm c = none) :
    DemangleSymbols glibcxx dm text = text := by
  cases glibcxx with
  | false => rfl
  | true =>
    simp only [DemangleSymbols, DemangleSymbols.candidates, if_true] at h ⊢
    exact DemangleSymbols.run_text_of_all_fail dm text.length text (Nat.le_refl _) h

/-- C3, at a text that holds `_Z!`: the candidate passed to the demangler is `_Z`,
the demangler fails, and the text is returned as it was. -/
theorem DemangleSymbols_failure_preserves_text_witness :
    DemangleSymbols.candidates true demangleStackTrace "f(_Z!) [0x1]".toList = ["_Z".toList] ∧
    DemangleSymbols true demangleStackTrace "f(_Z!) [0x1]".toList = "f(_Z!) [0x1]".toList :=
  ⟨by decide,
    DemangleSymbols_failure_preserves_text true demangleStackTrace "f(_Z!) [0x1]".toList
      (by decide)⟩

theorem DemangleSymbols.run_segments (dm : Demangler) :
    ∀ (n : Nat) (t : List Char), t.length ≤ n →
      ∃ (u0 : List Char) (segs : List Segment),
        t = u0 ++ Segment.before segs ∧
        (DemangleSymbols.run dm t).text = u0 ++ Segment.after segs ∧
        ∀ s ∈ segs, kMangledSymbolPrefix <+: s.candidate ∧
          (∀ c ∈ s.candidate, c ∈ kSymbolCharacters) ∧
          dm s.candidate = some s.demangled := by
  intro n
  induction n with
  | zero =>
    intro t ht
    have : t = [] := List.length_eq_zero.mp (Nat.le_zero.mp ht)
    subst this
    exact ⟨[], [], rfl, rfl, by simp⟩
  | succ n ih =>
    intro t ht
    rcases DemangleSymbols.text_cases t with hno | ⟨pre, m, post, hcut, hm, hf, hsym, hpost⟩
    · refine ⟨t, [], by simp [Segment.before], ?_, by simp⟩
      rw [DemangleSymbols.run_of_none dm t hno]
      simp [Segment.after]
    · subst hcut
      have hlen := prefix_length_le hm
      have h := DemangleSymbols.run_of_decomp dm pre m post hm hf hsym hpost
      simp only [List.length_append] at ht
      cases hd : dm m with
      | some d =>
        rw [hd] at h
        obtain ⟨u0, segs, h1, h2, h3⟩ := ih post (by omega)
        refine ⟨pre, ⟨m, d, u0⟩ :: segs, ?_, ?_, ?_⟩
        · simp only [Segment.before]
          rw [List.append_assoc m, ← h1, List.append_assoc]
        · rw [h]
          simp only [LoopState.shift, Segment.after, h2, List.append_assoc]
        · intro s hs
          rcases List.mem_cons.mp hs with rfl | hs
          · exact ⟨hm, hsym, hd⟩
          · exact h3 s hs
      | none =>
        rw [hd] at h
        obtain ⟨u0, segs, h1, h2, h3⟩ := ih (m.drop 2 ++ post)
          (by simp only [List.length_append, List.length_drop]; omega)
        have hm2 : kMangledSymbolPrefix ++ m.drop 2 = m := List.prefix_iff_eq_append.mp hm
        refine ⟨pre ++ kMangledSymbolPrefix ++ u0, segs, ?_, ?_, h3⟩
        · rw [List.append_assoc (pre ++ kMangledSymbolPrefix), ← h1]
          conv_lhs => rw [← hm2]
          simp only [List.append_assoc]
        · rw [h]
          simp only [LoopState.shift, h2, List.append_assoc]

/-- C5: replacement leaves the unmatched regions and their order as they are. Every
text is `u0 ++ c1 ++ u1 ++ ... ++ cn ++ un` with
`DemangleSymbols(text) = u0 ++ d1 ++ u1 ++ ... ++ dn ++ un`, where every `ci` starts
with `_Z`, is made of symbol characters and is mapped to `di` by the demangler; and
the output depends on the demangler only through the values it returns. -/
theorem DemangleSymbols_keeps_unmatched_regions (glibcxx : Bool) (dm : Demangler)
    (text : List Char) :
    (∃ (u0 : List Char) (segs : List Segment),
      text = u0 ++ Segment.before segs ∧
      DemangleSymbols glibcxx dm text = u0 ++ Segment.after segs ∧
      ∀ s ∈ segs, kMangledSymbolPrefix <+: s.candidate ∧
        (∀ c ∈ s.candidate, c ∈ kSymbolCharacters) ∧
        dm s.candidate = some s.demangled) ∧
    ∀ dm2 : Demangler, (∀ c, dm2 c = dm c) →
      DemangleSymbols glibcxx dm2 text = DemangleSymbols glibcxx dm text := by
  constructor
  · cases glibcxx with
    | false => exact ⟨text, [], by simp [Segment.before], by simp [DemangleSymbols, Segment.after],
        by simp⟩
    | true =>
      simp only [DemangleSymbols, if_true]
      exact DemangleSymbols.run_segments dm text.length text (Nat.le_refl _)
  · intro dm2 h
    rw [funext h]

theorem prefix_drop_iff (l : List Char) (j : Nat) :
    kMangledSymbolPrefix <+: l.drop j ↔ l[j]? = some '_' ∧ l[j + 1]? = some 'Z' := by
  have h0 : ∀ r : List Char,
      kMangledSymbolPrefix <+: r ↔ r[0]? = some '_' ∧ r[1]? = some 'Z' := by
    intro r
    match r with
    | [] => simp [kMangledSymbolPrefix]
    | [a] => simp [kMangledSymbolPrefix]
    | a :: b :: r => simp [kMangledSymbolPrefix, List.prefix_cons_inj, eq_comm]
  rw [h0, List.getElem?_drop, List.getElem?_drop]
  rfl

/-- C4 fails on the code: with a demangler that succeeds on `_ZN1AC1Ev` and on
`_ZN1BC1Ev` only, the line `_ZN1AC1Ev_ZN1BC1Ev` becomes `_ZN1AC1EvB::B()`. The first
candidate is the whole line, for the underscore is a symbol character; `_ZN1AC1Ev`
is never passed to the demangler. -/
theorem DemangleSymbols_adjacent_counterexample :
    demangleCtors "_ZN1AC1Ev".toList = some "A::A()".toList ∧
    demangleCtors "_ZN1BC1Ev".toList = some "B::B()".toList ∧
    DemangleSymbols.candidates true demangleCtors ("_ZN1AC1Ev".toList ++ "_ZN1BC1Ev".toList) =
      ["_ZN1AC1Ev_ZN1BC1Ev".toList, "_ZN1BC1Ev".toList] ∧
    "_ZN1AC1Ev".toList ∉
      DemangleSymbols.candidates true demangleCtors ("_ZN1AC1Ev".toList ++ "_ZN1BC1Ev".toList) ∧
    DemangleSymbols true demangleCtors ("_ZN1AC1Ev".toList ++ "_ZN1BC1Ev".toList) =
      "_ZN1AC1EvB::B()".toList ∧
    DemangleSymbols true demangleCtors ("_ZN1AC1Ev".toList ++ "_ZN1BC1Ev".toList) ≠
      "A::A()".toList ++ "B::B()".toList := by
  decide

/-- C4, amended: two mangled names `_Z r1` and `_Z r2` written with nothing between
them (`r1`, `r2` made of symbol characters, no `_Z` in `r1`) form one candidate. If
the demangler fails on it and maps `_Z r2` to `d2`, the candidates passed to it are
the whole text and then `_Z r2`, and the result is `_Z r1 ++ d2`: the first name is
left mangled. -/
theorem DemangleSymbols_adjacent (dm : Demangler) (r1 r2 d2 : List Char)
    (h1 : ∀ c ∈ r1, c ∈ kSymbolCharacters) (h2 : ∀ c ∈ r2, c ∈ kSymbolCharacters)
    (hno : ∀ j, j < r1.length → ¬ kMangledSymbolPrefix <+: r1.drop j)
    (hfail : dm ((kMangledSymbolPrefix ++ r1) ++ (kMangledSymbolPrefix ++ r2)) = none)
    (hd2 : dm (kMangledSymbolPrefix ++ r2) = some d2) :
    DemangleSymbols.candidates true dm
        ((kMangledSymbolPrefix ++ r1) ++ (kMangledSymbolPrefix ++ r2)) =
      [(kMangledSymbolPrefix ++ r1) ++ (kMangledSymbolPrefix ++ r2),
        kMangledSymbolPrefix ++ r2] ∧
    DemangleSymbols true dm ((kMangledSymbolPrefix ++ r1) ++ (kMangledSymbolPrefix ++ r2)) =
      (kMangledSymbolPrefix ++ r1) ++ d2 := by
  have hsym1 : ∀ c ∈ (kMangledSymbolPrefix ++ r1) ++ (kMangledSymbolPrefix ++ r2),
      c ∈ kSymbolCharacters := by
    intro c hc
    simp only [List.mem_append] at hc
    rcases hc with (hc | hc) | (hc | hc)
    · exact symbol_prefix_chars c hc
    · exact h1 c hc
    · exact symbol_prefix_chars c hc
    · exact h2 c hc
  have hsym2 : ∀ c ∈ kMangledSymbolPrefix ++ r2, c ∈ kSymbolCharacters :=
    fun c hc => hsym1 c (List.mem_append_right _ hc)
  -- first pass: the whole text is the candidate, and the demangler fails on it
  have hA := DemangleSymbols.run_of_decomp dm []
    ((kMangledSymbolPrefix ++ r1) ++ (kMangledSymbolPrefix ++ r2)) []
    (by rw [List.append_assoc]; exact List.prefix_append _ _)
    (by intro j hj; simp at hj) hsym1 (by simp)
  rw [hfail] at hA
  simp only [List.nil_append, List.append_nil] at hA
  have hdrop : List.drop 2 ((kMangledSymbolPrefix ++ r1) ++ (kMangledSymbolPrefix ++ r2)) =
      r1 ++ (kMangledSymbolPrefix ++ r2) := by
    simp [kMangledSymbolPrefix]
  rw [hdrop] at hA
  -- second pass: the candidate is the second name
  have hB := DemangleSymbols.run_of_decomp dm r1 (kMangledSymbolPrefix ++ r2) []
    (List.prefix_append _ _)
    (by
      intro j hj
      rw [prefix_drop_iff]
      rintro ⟨ha, hb⟩
      by_cases hj1 : j + 1 < r1.length
      · apply hno j hj
        rw [prefix_drop_iff]
        rw [List.append_nil, List.getElem?_append_left hj] at ha
        rw [List.append_nil, List.getElem?_append_left hj1] at hb
        exact ⟨ha, hb⟩
      · rw [List.append_nil, List.getElem?_append_right (by omega),
          show j + 1 - r1.length = 0 by omega] at hb
        simp [kMangledSymbolPrefix] at hb)
    hsym2 (by simp)
  rw [hd2] at hB
  simp only [List.append_nil] at hB
  rw [DemangleSymbols.run_of_none dm [] (by intro j; simp [kMangledSymbolPrefix])] at hB
  simp only [DemangleSymbols, DemangleSymbols.candidates, if_true, hA, hB, LoopState.shift]
  simp

/-- C4, amended, at `_ZN1AC1Ev_ZN1BC1Ev`. -/
theorem DemangleSymbols_adjacent_witness :
    DemangleSymbols.candidates true demangleCtors
        ((kMangledSymbolPrefix ++ "N1AC1Ev".toList) ++ (kMangledSymbolPrefix ++ "N1BC1Ev".toList)) =
      [(kMangledSymbolPrefix ++ "N1AC1Ev".toList) ++ (kMangledSymbolPrefix ++ "N1BC1Ev".toList),
        kMangledSymbolPrefix ++ "N1BC1Ev".toList] ∧
    DemangleSymbols true demangleCtors
        ((kMangledSymbolPrefix ++ "N1AC1Ev".toList) ++ (kMangledSymbolPrefix ++ "N1BC1Ev".toList)) =
      (kMangledSymbolPrefix ++ "N1AC1Ev".toList) ++ "B::B()".toList :=
  DemangleSymbols_adjacent demangleCtors "N1AC1Ev".toList "N1BC1Ev".toList "B::B()".toList
    (by decide) (by decide) (by decide) (by decide) (by decide)

/-! ## Theorems about `GetBacktraceStrings` -/

theorem foldl_push {α : Type} (f : Nat → α) :
    ∀ (l : List Nat) (init : List α),
      l.foldl (fun acc i => acc ++ [f i]) init = init ++ l.map f := by
  intro l
  induction l with
  | nil => intro init; simp
  | cons a l ih => intro init; simp [ih]

theorem GetBacktraceStrings.foldl_symbolize_pass (P : Platform) (trace : Nat → Nat) :
    ∀ (l : List Nat) (ts : List (List Char)) (b : Bool),
      l.foldl (GetBacktraceStrings.symbolize_pass P trace) (ts, b) =
        (ts ++ l.map (fun i =>
            match P.Symbolize (char_ptr_pred P.pointer_bits (trace i)) with
            | some symbol => symbol ++ [' ', '['] ++ P.format_p (trace i) ++ [']']
            | none => P.format_p (trace i)),
          b || l.any (fun i =>
            (P.Symbolize (char_ptr_pred P.pointer_bits (trace i))).isSome)) := by
  intro l
  induction l with
  | nil => intro ts b; simp
  | cons a l ih =>
    intro ts b
    rw [List.foldl_cons]
    cases h : P.Symbolize (char_ptr_pred P.pointer_bits (trace a)) with
    | none =>
      have : GetBacktraceStrings.symbolize_pass P trace (ts, b) a =
          (ts ++ [P.format_p (trace a)], b) := by
        simp [GetBacktraceStrings.symbolize_pass, h]
      rw [this, ih]
      simp [h]
    | some symbol =>
      have : GetBacktraceStrings.symbolize_pass P trace (ts, b) a =
          (ts ++ [symbol ++ [' ', '['] ++ P.format_p (trace a) ++ [']']], true) := by
        simp [GetBacktraceStrings.symbolize_pass, h]
      rw [this, ih]
      simp [h]

/-- C6: fallback coverage. In the generic strategy, when `backtrace_symbols` returns
`NULL` for a trace of `n` addresses, `GetBacktraceStrings` returns `false`, adds
exactly the `n` lines `%p` of `trace[0]`, ..., `trace[n-1]`, in that order, and
stores `safe_strerror(errno)` in `*error_message` when the pointer is not `NULL`. -/
theorem GetBacktraceStrings_fallback (B : Build) (P : Platform) (trace : Nat → Nat) (n : Nat)
    (trace_strings : List (List Char)) (error_message : Option (List Char))
    (hA : B.ANDROID = false) (hU : B.USE_SYMBOLIZE = false)
    (hnull : P.backtrace_symbols trace n = none) :
    GetBacktraceStrings B P trace n trace_strings error_message =
      { symbolized := false
        trace_strings := trace_strings ++ (List.range n).map (fun i => P.format_p (trace i))
        error_message := error_message.map (fun _ => P.safe_strerror P.errno) } := by
  simp only [GetBacktraceStrings, hA, hU, hnull, Int.toNat_ofNat, foldl_push]
  simp

/-- C6, at a trace of two addresses on a platform out of memory. -/
theorem GetBacktraceStrings_fallback_witness :
    GetBacktraceStrings buildGeneric platformNoMemory sampleTrace (2 : Nat) [] (some []) =
      { symbolized := false
        trace_strings := ["0x817778c".toList, "0x8177790".toList]
        error_message := some "Cannot allocate memory".toList } :=
  GetBacktraceStrings_fallback buildGeneric platformNoMemory sampleTrace 2 [] (some [])
    rfl rfl rfl

/-- C7: success in the generic strategy. When `backtrace_symbols` returns an array
`r` for a trace of `n` addresses, `GetBacktraceStrings` returns `true`, adds exactly
the `n` lines `DemangleSymbols(r[0])`, ..., `DemangleSymbols(r[n-1])`, in that
order, and leaves `*error_message` as it was. -/
theorem GetBacktraceStrings_generic_success (B : Build) (P : Platform) (trace : Nat → Nat)
    (n : Nat) (trace_strings : List (List Char)) (error_message : Option (List Char))
    (r : Nat → List Char)
    (hA : B.ANDROID = false) (hU : B.USE_SYMBOLIZE = false)
    (hr : P.backtrace_symbols trace n = some r) :
    GetBacktraceStrings B P trace n trace_strings error_message =
      { symbolized := true
        trace_strings := trace_strings ++
          (List.range n).map (fun i => DemangleSymbols B.GLIBCXX P.cxa_demangle (r i))
        error_message := error_message } := by
  simp only [GetBacktraceStrings, hA, hU, hr, Int.toNat_ofNat, foldl_push]
  simp

/-- C7, at a trace of two addresses whose raw lines name a mangled constructor. -/
theorem GetBacktraceStrings_generic_success_witness :
    GetBacktraceStrings buildGeneric platformResolving sampleTrace (2 : Nat) [] (some []) =
      { symbolized := true
        trace_strings := ["app(StackTrace::StackTrace()+0x20) [0x817778c]".toList,
          "app(StackTrace::StackTrace()+0x20) [0x8177790]".toList]
        error_message := some [] } :=
  GetBacktraceStrings_generic_success buildGeneric platformResolving sampleTrace 2 [] (some [])
    (fun i => "app(_ZN10StackTraceC1Ev+0x20) [".toList ++ formatHex (sampleTrace i) ++ [']'])
    rfl rfl rfl

/-- C8 fails on the code: when `google::Symbolize` returns `true` and leaves an empty
string, the line is ` [0x817778c]` (the format `%s [%p]` with an empty `%s`), not
the address `0x817778c` alone. The branch is taken on the value returned; the
string is not looked at. -/
theorem GetBacktraceStrings_symbolize_counterexample :
    platformEmptySymbol.Symbolize (sampleTrace 0 - 1) = some [] ∧
    (GetBacktraceStrings buildSymbolize platformEmptySymbol sampleTrace (1 : Nat) []
        none).trace_strings = [" [0x817778c]".toList] ∧
    (GetBacktraceStrings buildSymbolize platformEmptySymbol sampleTrace (1 : Nat) []
        none).trace_strings ≠ [platformEmptySymbol.format_p (sampleTrace 0)] := by
  decide

theorem char_ptr_pred_eq (bits a : Nat) (h0 : 0 < a) (h1 : a < 2 ^ bits) :
    char_ptr_pred bits a = a - 1 := by
  unfold char_ptr_pred
  rw [show a + 2 ^ bits - 1 = (a - 1) + 2 ^ bits by omega, Nat.add_mod_right,
    Nat.mod_eq_of_lt (by omega)]

/-- C8, amended: in the `USE_SYMBOLIZE` strategy `GetBacktraceStrings` adds one line
per address, in capture order. For the address `a` the resolver is given the
pointer before `a` (which is `a - 1` for every `a` that is not null); the line is
the symbol, a space and the `%p` of `a` in square brackets when the resolver
returns `true`, whatever string it leaves, the empty one included, and is the `%p`
of `a` alone when the resolver returns `false`. -/
theorem GetBacktraceStrings_symbolize_lines (B : Build) (P : Platform) (trace : Nat → Nat)
    (n : Nat) (trace_strings : List (List Char)) (error_message : Option (List Char))
    (hA : B.ANDROID = false) (hU : B.USE_SYMBOLIZE = true) :
    (GetBacktraceStrings B P trace n trace_strings error_message).trace_strings =
      trace_strings ++ (List.range n).map (fun i =>
        match P.Symbolize (char_ptr_pred P.pointer_bits (trace i)) with
        | some symbol => symbol ++ [' ', '['] ++ P.format_p (trace i) ++ [']']
        | none => P.format_p (trace i)) ∧
    ∀ a, 0 < a → a < 2 ^ P.pointer_bits → char_ptr_pred P.pointer_bits a = a - 1 := by
  constructor
  · simp only [GetBacktraceStrings, hA, hU, Int.toNat_ofNat,
      GetBacktraceStrings.foldl_symbolize_pass]
    simp
  · intro a h0 h1
    exact char_ptr_pred_eq _ a h0 h1

/-- C8, amended, at a trace of two addresses of which the resolver knows the first. -/
theorem GetBacktraceStrings_symbolize_lines_witness :
    (GetBacktraceStrings buildSymbolize platformResolving sampleTrace (2 : Nat) []
        none).trace_strings =
      ["StackTrace::StackTrace() [0x817778c]".toList, "0x8177790".toList] :=
  (GetBacktraceStrings_symbolize_lines buildSymbolize platformResolving sampleTrace 2 [] none
    rfl rfl).1

/-- C9: in the `USE_SYMBOLIZE` strategy `GetBacktraceStrings` returns `true` exactly
when `google::Symbolize` returns `true` for at least one address of the trace; so it
returns `false` when the resolver fails on all of them and when the trace is empty. -/
theorem GetBacktraceStrings_symbolized_iff (B : Build) (P : Platform) (trace : Nat → Nat)
    (n : Nat) (trace_strings : List (List Char)) (error_message : Option (List Char))
    (hA : B.ANDROID = false) (hU : B.USE_SYMBOLIZE = true) :
    (GetBacktraceStrings B P trace n trace_strings error_message).symbolized = true ↔
      ∃ i, i < n ∧ (P.Symbolize (char_ptr_pred P.pointer_bits (trace i))).isSome = true := by
  simp only [GetBacktraceStrings, hA, hU, Int.toNat_ofNat,
    GetBacktraceStrings.foldl_symbolize_pass]
  simp [List.any_eq_true]

/-- C9, at a trace of two addresses of which the resolver knows the first, and at
the same trace on a platform whose resolver knows none. -/
theorem GetBacktraceStrings_symbolized_iff_witness :
    (GetBacktraceStrings buildSymbolize platformResolving sampleTrace (2 : Nat) []
        none).symbolized = true ∧
    (GetBacktraceStrings buildSymbolize platformNoMemory sampleTrace (2 : Nat) []
        none).symbolized = false ∧
    (GetBacktraceStrings buildSymbolize platformResolving sampleTrace (0 : Nat) []
        none).symbolized = false :=
  ⟨(GetBacktraceStrings_symbolized_iff buildSymbolize platformResolving sampleTrace 2 [] none
      rfl rfl).mpr ⟨0, by decide, by decide⟩,
    by decide, by decide⟩

/-- C10 fails on the code in the generic strategy: for a trace of no address,
`GetBacktraceStrings` returns `true` when `backtrace_symbols` returns an array, and
when `backtrace_symbols` returns `NULL` it stores the error text in
`*error_message`. -/
theorem GetBacktraceStrings_empty_trace_counterexample :
    (GetBacktraceStrings buildGeneric platformResolving sampleTrace (0 : Nat) []
        (some [])).symbolized = true ∧
    (GetBacktraceStrings buildGeneric platformNoMemory sampleTrace (0 : Nat) []
        (some [])).error_message = some "Cannot allocate memory".toList := by
  decide

/-- C10, amended: for a trace of no address `GetBacktraceStrings` adds no line, in
every build. On `ANDROID` and in the `USE_SYMBOLIZE` strategy it returns `false` and
leaves `*error_message` as it was. In the generic strategy the outcome is that of
`backtrace_symbols`: `true` and `*error_message` as it was when an array is
returned, `false` and `safe_strerror(errno)` in `*error_message` when `NULL` is. -/
theorem GetBacktraceStrings_empty_trace (B : Build) (P : Platform) (trace : Nat → Nat)
    (trace_strings : List (List Char)) (error_message : Option (List Char)) :
    (GetBacktraceStrings B P trace 0 trace_strings error_message).trace_strings =
        trace_strings ∧
    ((B.ANDROID = true ∨ B.USE_SYMBOLIZE = true) →
      (GetBacktraceStrings B P trace 0 trace_strings error_message).symbolized = false ∧
      (GetBacktraceStrings B P trace 0 trace_strings error_message).error_message =
        error_message) ∧
    ((B.ANDROID = false ∧ B.USE_SYMBOLIZE = false) →
      (GetBacktraceStrings B P trace 0 trace_strings error_message).symbolized =
        (P.backtrace_symbols trace 0).isSome ∧
      (GetBacktraceStrings B P trace 0 trace_strings error_message).error_message =
        if (P.backtrace_symbols trace 0).isSome then error_message
        else error_message.map (fun _ => P.safe_strerror P.errno)) := by
  obtain ⟨android, use_symbolize, glibcxx⟩ := B
  cases android <;> cases use_symbolize <;>
    cases h : P.backtrace_symbols trace 0 <;>
    simp [GetBacktraceStrings, h]

/-! ## Theorems about the scan of `DemangleSymbols` -/

/-- C17: the scan resumes two characters after a prefix whose candidate fails. When
`pre ++ _Z` holds `_Z` at its end only and the demangler fails on the candidate that
starts there (`_Z` and the symbol characters that follow it in `rest`), then
`DemangleSymbols(pre ++ _Z ++ rest) = pre ++ _Z ++ DemangleSymbols(rest)`. -/
theorem DemangleSymbols_retry_after_failure (dm : Demangler) (pre rest : List Char)
    (honly : ∀ j, j < pre.length →
      ¬ kMangledSymbolPrefix <+: (pre ++ kMangledSymbolPrefix).drop j)
    (hfail : dm (kMangledSymbolPrefix ++
      rest.takeWhile (fun c => decide (c ∈ kSymbolCharacters))) = none) :
    DemangleSymbols true dm (pre ++ kMangledSymbolPrefix ++ rest) =
      pre ++ kMangledSymbolPrefix ++ DemangleSymbols true dm rest := by
  have hcut : pre ++ kMangledSymbolPrefix ++ rest =
      pre ++ (kMangledSymbolPrefix ++ rest.takeWhile (fun c => decide (c ∈ kSymbolCharacters)))
        ++ rest.dropWhile (fun c => decide (c ∈ kSymbolCharacters)) := by
    simp only [List.append_assoc, List.takeWhile_append_dropWhile]
  have hm : kMangledSymbolPrefix <+:
      kMangledSymbolPrefix ++ rest.takeWhile (fun c => decide (c ∈ kSymbolCharacters)) :=
    List.prefix_append _ _
  have hpre := no_prefix_before pre kMangledSymbolPrefix
    (rest.takeWhile (fun c => decide (c ∈ kSymbolCharacters))) (List.prefix_refl _) honly
  rw [List.append_assoc] at hpre
  have h := DemangleSymbols.run_of_decomp dm pre _
    (rest.dropWhile (fun c => decide (c ∈ kSymbolCharacters))) hm
    (no_prefix_before pre _ _ hm hpre)
    (by
      intro c hc
      rcases List.mem_append.mp hc with hc | hc
      · exact symbol_prefix_chars c hc
      · have h5 := List.mem_takeWhile_imp hc
        simpa using h5)
    (by
      intro c hc
      have := List.head?_dropWhile_not (fun c => decide (c ∈ kSymbolCharacters)) rest
      rw [Option.mem_def] at hc
      rw [hc] at this
      simpa using this)
  rw [hfail] at h
  have hdrop : List.drop 2
      (kMangledSymbolPrefix ++ rest.takeWhile (fun c => decide (c ∈ kSymbolCharacters))) =
      rest.takeWhile (fun c => decide (c ∈ kSymbolCharacters)) := by
    simp [kMangledSymbolPrefix]
  simp only [hdrop, List.takeWhile_append_dropWhile] at h
  rw [hcut]
  simp only [DemangleSymbols, if_true, h, LoopState.shift]

/-- C17, at `f(_Z_ZN1AC1Ev)`: the candidate `_Z_ZN1AC1Ev` fails, the scan resumes
after its `_Z`, and the name inside it is found and demangled. -/
theorem DemangleSymbols_retry_after_failure_witness :
    DemangleSymbols.candidates true demangleCtors "f(_Z_ZN1AC1Ev)".toList =
      ["_Z_ZN1AC1Ev".toList, "_ZN1AC1Ev".toList] ∧
    DemangleSymbols true demangleCtors ("f(".toList ++ kMangledSymbolPrefix ++ "_ZN1AC1Ev)".toList) =
      "f(".toList ++ kMangledSymbolPrefix ++ "A::A())".toList :=
  ⟨by decide,
    DemangleSymbols_retry_after_failure demangleCtors "f(".toList "_ZN1AC1Ev)".toList
      (by decide) (by decide)⟩

theorem DemangleSymbols.step_calls (dm : Demangler) (st st1 : LoopState)
    (h : DemangleSymbols.step dm st = some st1) :
    st1.calls.length = st.calls.length + 1 := by
  rcases DemangleSymbols.step_cases dm st with ⟨hn, _⟩ | ⟨pre, m, post, ht, hs, hm, hf, hsym, hpost⟩
  · rw [hn] at h
    cases h
  · obtain ⟨t, s, cs⟩ := st
    simp only at ht hs hf
    subst ht
    rw [DemangleSymbols.step_of_decomp dm pre m post s cs hs hm hf hsym hpost] at h
    cases hd : dm m with
    | none =>
      rw [hd] at h
      simp only [Option.some.injEq] at h
      subst h
      simp
    | some d =>
      rw [hd] at h
      simp only [Option.some.injEq] at h
      subst h
      simp

theorem DemangleSymbols.loop_calls_le (dm : Demangler) :
    ∀ (fuel : Nat) (st : LoopState),
      (DemangleSymbols.loop dm fuel st).calls.length ≤
        st.calls.length + (st.text.length - st.search_from) / 2 := by
  intro fuel
  induction fuel with
  | zero =>
    intro st
    simp [DemangleSymbols.loop]
  | succ f ih =>
    intro st
    rw [DemangleSymbols.loop]
    cases hst : DemangleSymbols.step dm st with
    | none => simp
    | some st1 =>
      have h1 := DemangleSymbols.step_measure dm st st1 hst
      have h2 := DemangleSymbols.step_calls dm st st1 hst
      have h3 := ih st1
      simp only
      omega

/-- C18: the scan of `DemangleSymbols` ends, for every text and every demangler.
Every pass that stays in the loop lowers `text.size() - search_from` by two or more;
the loop is left within `text.size()` passes, giving the same state for any larger
number of passes allowed; and the demangler is called at most `text.size() / 2`
times. -/
theorem DemangleSymbols_terminates (dm : Demangler) (text : List Char) :
    (∀ st st1, DemangleSymbols.step dm st = some st1 →
      st1.text.length - st1.search_from + 2 ≤ st.text.length - st.search_from) ∧
    DemangleSymbols.step dm (DemangleSymbols.run dm text) = none ∧
    (∀ fuel, text.length ≤ fuel →
      DemangleSymbols.loop dm fuel ⟨text, 0, []⟩ = DemangleSymbols.run dm text) ∧
    (DemangleSymbols.candidates true dm text).length ≤ text.length / 2 := by
  refine ⟨DemangleSymbols.step_measure dm, DemangleSymbols.run_exits dm text, ?_, ?_⟩
  · intro fuel hfuel
    exact DemangleSymbols.loop_fuel_le dm ⟨text, 0, []⟩ text.length fuel (by simp) hfuel
  · have := DemangleSymbols.loop_calls_le dm text.length ⟨text, 0, []⟩
    simpa [DemangleSymbols.candidates, DemangleSymbols.run] using this

/-! ## Theorems about the constructor -/

/-- C11 fails on the code: a capture primitive that returns `63` for a buffer of
`62` entries leaves `count_ = 63`. Only the lower bound is enforced, by
`std::max(..., 0)`. -/
theorem StackTrace_count_counterexample :
    (StackTrace.ctor buildGeneric (unwinderReturning 63) 62 sampleStorage).count_ = 63 ∧
    ¬ ((StackTrace.ctor buildGeneric (unwinderReturning 63) 62 sampleStorage).count_ ≤ 62) := by
  decide

/-- C11, amended: when the constructor calls the capture primitive and it returns
`r`, the count stored is `max(r, 0)`. So it is never negative, a negative `r` is
stored as `0`, and the count is at most the capacity whenever `r` is. -/
theorem StackTrace_count_bounds (B : Build) (U : Unwinder) (kMaxTraces : Nat)
    (storage : StackTrace) (hA : B.ANDROID = false)
    (hU : (U.MAC_PRE_10_5 && U.backtrace_null) = false) :
    (StackTrace.ctor B U kMaxTraces storage).count_ =
      max (U.backtrace storage.trace_ kMaxTraces).2 0 ∧
    0 ≤ (StackTrace.ctor B U kMaxTraces storage).count_ ∧
    ((U.backtrace storage.trace_ kMaxTraces).2 < 0 →
      (StackTrace.ctor B U kMaxTraces storage).count_ = 0) ∧
    ((U.backtrace storage.trace_ kMaxTraces).2 ≤ kMaxTraces →
      (StackTrace.ctor B U kMaxTraces storage).count_ ≤ kMaxTraces) := by
  have hc : (StackTrace.ctor B U kMaxTraces storage).count_ =
      max (U.backtrace storage.trace_ kMaxTraces).2 0 := by
    simp [StackTrace.ctor, hA, hU]
  rw [hc]
  refine ⟨rfl, ?_, ?_, ?_⟩
  · exact le_max_right _ _
  · intro h
    exact max_eq_right (le_of_lt h)
  · intro h
    exact max_le h (Int.ofNat_nonneg _)

/-- C11, amended, at a primitive that returns `-1`, and at one that returns `2`, for
a buffer of `62` entries. -/
theorem StackTrace_count_bounds_witness :
    (StackTrace.ctor buildGeneric (unwinderReturning (-1)) 62 sampleStorage).count_ = 0 ∧
    (StackTrace.ctor buildGeneric (unwinderReturning 2) 62 sampleStorage).count_ = 2 :=
  ⟨(StackTrace_count_bounds buildGeneric (unwinderReturning (-1)) 62 sampleStorage
      rfl rfl).2.2.1 (by decide),
    by decide⟩

/-- C14 fails on the code, on `ANDROID`: the body of the constructor is `return;`, so
`count_` keeps what the memory held (here `7`). The path for Mac OS X before 10.5
with `backtrace == NULL` does set `count_` to `0`. -/
theorem StackTrace_ctor_android_leaves_count :
    (StackTrace.ctor buildAndroid unwinderMissing 62 sampleStorage).count_ = 7 ∧
    (StackTrace.ctor buildGeneric unwinderMissing 62 sampleStorage).count_ = 0 := by
  decide

/-! ## Theorems about rendering -/

theorem StackTrace.write_lines_eq (trace_strings : List (List Char)) :
    ∀ os : List Char, StackTrace.write_lines os trace_strings =
      os ++ (trace_strings.map (fun s => ['\t'] ++ s ++ ['\n'])).flatten := by
  induction trace_strings with
  | nil => intro os; simp [StackTrace.write_lines]
  | cons a l ih =>
    intro os
    have := ih (os ++ ['\t'] ++ a ++ ['\n'])
    simp only [StackTrace.write_lines, List.foldl_cons] at this ⊢
    rw [this]
    simp

/-- C15: on `ANDROID`, `GetBacktraceStrings` returns `false` and leaves
`*trace_strings` and `*error_message` as they were, for every trace and size; the
result is the same for any other trace buffer and any other platform; and
`OutputToStream` and `PrintBacktrace` write nothing. -/
theorem GetBacktraceStrings_android_short_circuit (B : Build) (U : Unwinder) (P : Platform)
    (trace : Nat → Nat) (size : Int) (trace_strings : List (List Char))
    (error_message : Option (List Char)) (self : StackTrace) (os : List Char)
    (hA : B.ANDROID = true) :
    GetBacktraceStrings B P trace size trace_strings error_message =
      { symbolized := false, trace_strings := trace_strings, error_message := error_message } ∧
    (∀ (P2 : Platform) (trace2 : Nat → Nat),
      GetBacktraceStrings B P2 trace2 size trace_strings error_message =
        GetBacktraceStrings B P trace size trace_strings error_message) ∧
    (StackTrace.OutputToStream B U P self os).stream = os ∧
    (StackTrace.PrintBacktrace B U P self os).stream = os := by
  refine ⟨?_, ?_, ?_, ?_⟩
  · simp [GetBacktraceStrings, hA]
  · intro P2 trace2
    simp [GetBacktraceStrings, hA]
  · simp [StackTrace.OutputToStream, hA]
  · simp [StackTrace.PrintBacktrace, hA]

/-- C15, at a build for Android with a trace of two addresses. -/
theorem GetBacktraceStrings_android_short_circuit_witness :
    GetBacktraceStrings buildAndroid platformResolving sampleTrace 2 [] (some []) =
      { symbolized := false, trace_strings := [], error_message := some [] } ∧
    (StackTrace.OutputToStream buildAndroid (unwinderReturning 2) platformResolving
      sampleStackTrace []).stream = [] ∧
    (StackTrace.PrintBacktrace buildAndroid (unwinderReturning 2) platformResolving
      sampleStackTrace []).stream = [] :=
  have h := GetBacktraceStrings_android_short_circuit buildAndroid (unwinderReturning 2)
    platformResolving sampleTrace 2 [] (some []) sampleStackTrace [] rfl
  ⟨h.1, h.2.2.1, h.2.2.2⟩

/-- C12: the header of a failure with an error text. When `OutputToStream` gets from
`GetBacktraceStrings` the value `false` and a non-empty error text `E`, for a trace
of `n` addresses, it writes `Unable to get symbols for backtrace (E). Dumping raw
addresses in trace:` and a newline, then for each of the `n` addresses, in capture
order, a tab, the `%p` of the address and a newline. -/
theorem OutputToStream_failure_header (B : Build) (U : Unwinder) (P : Platform)
    (self : StackTrace) (os : List Char) (n : Nat) (E : List Char)
    (hA : B.ANDROID = false) (hM : (U.MAC_PRE_10_5 && U.backtrace_symbols_null) = false)
    (hn : self.count_ = n)
    (hs : (GetBacktraceStrings B P self.trace_ self.count_ [] (some [])).symbolized = false)
    (hE : (GetBacktraceStrings B P self.trace_ self.count_ [] (some [])).error_message = some E)
    (hne : E ≠ []) :
    (StackTrace.OutputToStream B U P self os).stream =
      os ++ "Unable to get symbols for backtrace (".toList ++ E
        ++ "). Dumping raw addresses in trace:\n".toList
        ++ ((List.range n).map
            (fun i => ['\t'] ++ P.format_p (self.trace_ i) ++ ['\n'])).flatten := by
  have hlines : (GetBacktraceStrings B P self.trace_ self.count_ [] (some [])).trace_strings =
      (List.range n).map (fun i => P.format_p (self.trace_ i)) := by
    rw [hn] at hs hE ⊢
    cases hUS : B.USE_SYMBOLIZE with
    | true =>
      simp only [GetBacktraceStrings, hA, hUS, if_true, Bool.false_eq_true, if_false,
        Option.some.injEq] at hE
      exact absurd hE.symm hne
    | false =>
      cases hb : P.backtrace_symbols self.trace_ n with
      | some r => simp [GetBacktraceStrings, hA, hUS, hb] at hs
      | none => simp [GetBacktraceStrings, hA, hUS, hb, foldl_push]
  simp only [StackTrace.OutputToStream, hA, hM, hs, hE, hlines, StackTrace.write_lines_eq,
    Bool.false_eq_true, if_false, Option.getD_some, ne_eq, hne, not_false_eq_true, if_true,
    List.map_map]
  simp [Function.comp_def]

/-- C12, at a trace of two addresses on a platform where `backtrace_symbols` fails
with `Cannot allocate memory`. -/
theorem OutputToStream_failure_header_witness :
    (StackTrace.OutputToStream buildGeneric (unwinderReturning 2) platformNoMemory
      sampleStackTrace []).stream =
    ("Unable to get symbols for backtrace (Cannot allocate memory). ".toList ++
      "Dumping raw addresses in trace:\n".toList ++
      "\t0x817778c\n".toList ++ "\t0x8177790\n".toList) :=
  OutputToStream_failure_header buildGeneric (unwinderReturning 2) platformNoMemory
    sampleStackTrace [] 2 "Cannot allocate memory".toList rfl rfl rfl (by decide) (by decide)
    (by decide)

theorem StackTrace.OutputToStream_stream (B : Build) (U : Unwinder) (P : Platform)
    (self : StackTrace) (os : List Char)
    (hA : B.ANDROID = false) (hM : (U.MAC_PRE_10_5 && U.backtrace_symbols_null) = false) :
    (StackTrace.OutputToStream B U P self os).stream =
      os ++
        (if (GetBacktraceStrings B P self.trace_ self.count_ [] (some [])).symbolized = true
          then "Backtrace:\n".toList
          else "Unable to get symbols for backtrace".toList
            ++ (if (GetBacktraceStrings B P self.trace_ self.count_ [] (some [])).error_message.getD
                  [] ≠ []
                then " (".toList ++
                  (GetBacktraceStrings B P self.trace_ self.count_ [] (some [])).error_message.getD
                    [] ++ ")".toList
                else [])
            ++ ". Dumping raw addresses in trace:\n".toList)
        ++ ((GetBacktraceStrings B P self.trace_ self.count_ [] (some [])).trace_strings.map
            (fun s => ['\t'] ++ s ++ ['\n'])).flatten := by
  simp only [StackTrace.OutputToStream, hA, hM, StackTrace.write_lines_eq, Bool.false_eq_true,
    if_false]
  by_cases hs : (GetBacktraceStrings B P self.trace_ self.count_ [] (some [])).symbolized = true
  · simp [hs]
  · by_cases he :
      (GetBacktraceStrings B P self.trace_ self.count_ [] (some [])).error_message.getD [] = []
    · simp [hs, he]
    · simp [hs, he]

/-- C13: when `OutputToStream` renders, it writes a header, which is `Backtrace:` and
a newline when `GetBacktraceStrings` returns `true` and a sentence that starts
otherwise when it returns `false`; then, for each line of `GetBacktraceStrings`, in
order, a tab, the line and a newline; and nothing else. -/
theorem OutputToStream_header_and_lines (B : Build) (U : Unwinder) (P : Platform)
    (self : StackTrace) (os : List Char)
    (hA : B.ANDROID = false) (hM : (U.MAC_PRE_10_5 && U.backtrace_symbols_null) = false) :
    ((GetBacktraceStrings B P self.trace_ self.count_ [] (some [])).symbolized = true →
      (StackTrace.OutputToStream B U P self os).stream =
        os ++ "Backtrace:\n".toList
          ++ ((GetBacktraceStrings B P self.trace_ self.count_ [] (some [])).trace_strings.map
              (fun s => ['\t'] ++ s ++ ['\n'])).flatten) ∧
    ((GetBacktraceStrings B P self.trace_ self.count_ [] (some [])).symbolized = false →
      ∃ msg : List Char,
        "Unable to get symbols for backtrace".toList ++ msg
            ++ ". Dumping raw addresses in trace:\n".toList ≠ "Backtrace:\n".toList ∧
        (StackTrace.OutputToStream B U P self os).stream =
          os ++ ("Unable to get symbols for backtrace".toList ++ msg
              ++ ". Dumping raw addresses in trace:\n".toList)
            ++ ((GetBacktraceStrings B P self.trace_ self.count_ [] (some [])).trace_strings.map
                (fun s => ['\t'] ++ s ++ ['\n'])).flatten) := by
  have h := StackTrace.OutputToStream_stream B U P self os hA hM
  constructor
  · intro hs
    rw [h, if_pos hs]
  · intro hs
    rw [h, if_neg (by simp [hs])]
    exact ⟨_, by simp, rfl⟩

/-- C13, at a trace of two addresses that `backtrace_symbols` resolves. -/
theorem OutputToStream_header_and_lines_witness :
    (StackTrace.OutputToStream buildGeneric (unwinderReturning 2) platformResolving
      sampleStackTrace []).stream =
    ("Backtrace:\n".toList ++
      "\tapp(StackTrace::StackTrace()+0x20) [0x817778c]\n".toList ++
      "\tapp(StackTrace::StackTrace()+0x20) [0x8177790]\n".toList) :=
  (OutputToStream_header_and_lines buildGeneric (unwinderReturning 2) platformResolving
    sampleStackTrace [] rfl rfl).1 (by decide)

/-- C19: the header of a failure with no error text. When `OutputToStream` gets from
`GetBacktraceStrings` the value `false` and an empty error text, it writes `Unable to
get symbols for backtrace. Dumping raw addresses in trace:` and a newline, with no
parentheses and no extra space, and then the lines, each after a tab. -/
theorem OutputToStream_failure_header_plain (B : Build) (U : Unwinder) (P : Platform)
    (self : StackTrace) (os : List Char)
    (hA : B.ANDROID = false) (hM : (U.MAC_PRE_10_5 && U.backtrace_symbols_null) = false)
    (hs : (GetBacktraceStrings B P self.trace_ self.count_ [] (some [])).symbolized = false)
    (hE : (GetBacktraceStrings B P self.trace_ self.count_ [] (some [])).error_message =
      some []) :
    (StackTrace.OutputToStream B U P self os).stream =
      os ++ "Unable to get symbols for backtrace. Dumping raw addresses in trace:\n".toList
        ++ ((GetBacktraceStrings B P self.trace_ self.count_ [] (some [])).trace_strings.map
            (fun s => ['\t'] ++ s ++ ['\n'])).flatten := by
  rw [StackTrace.OutputToStream_stream B U P self os hA hM, if_neg (by simp [hs]), hE]
  simp

/-- C19, at a trace of two addresses with the preferred resolver, which knows
neither. -/
theorem OutputToStream_failure_header_plain_witness :
    (StackTrace.OutputToStream buildSymbolize (unwinderReturning 2) platformNoMemory
      sampleStackTrace []).stream =
    ("Unable to get symbols for backtrace. Dumping raw addresses in trace:\n".toList ++
      "\t0x817778c\n".toList ++ "\t0x8177790\n".toList) :=
  OutputToStream_failure_header_plain buildSymbolize (unwinderReturning 2) platformNoMemory
    sampleStackTrace [] rfl rfl (by decide) (by decide)

theorem StackTrace.OutputToStream_appends (B : Build) (U : Unwinder) (P : Platform)
    (self : StackTrace) :
    ∃ written : List Char, ∀ os : List Char,
      (StackTrace.OutputToStream B U P self os).stream = os ++ written := by
  by_cases hA : B.ANDROID = true
  · exact ⟨[], fun os => by simp [StackTrace.OutputToStream, hA]⟩
  · by_cases hM : (U.MAC_PRE_10_5 && U.backtrace_symbols_null) = true
    · exact ⟨[], fun os => by simp [StackTrace.OutputToStream, hM]⟩
    · refine ⟨(StackTrace.OutputToStream B U P self []).stream, fun os => ?_⟩
      rw [StackTrace.OutputToStream_stream B U P self os (by simpa using hA) (by simpa using hM),
        StackTrace.OutputToStream_stream B U P self [] (by simpa using hA) (by simpa using hM)]
      simp only [List.nil_append, List.append_assoc]

theorem StackTrace.PrintBacktrace_appends (B : Build) (U : Unwinder) (P : Platform)
    (self : StackTrace) :
    ∃ written : List Char, ∀ cerr : List Char,
      (StackTrace.PrintBacktrace B U P self cerr).stream = cerr ++ written := by
  by_cases hA : B.ANDROID = true
  · exact ⟨[], fun os => by simp [StackTrace.PrintBacktrace, hA]⟩
  · by_cases hM : (U.MAC_PRE_10_5 && U.backtrace_symbols_fd_null) = true
    · exact ⟨[], fun os => by simp [StackTrace.PrintBacktrace, hM]⟩
    · refine ⟨(StackTrace.PrintBacktrace B U P self []).stream, fun os => ?_⟩
      simp only [StackTrace.PrintBacktrace, hA, hM, StackTrace.write_lines_eq,
        Bool.false_eq_true, if_false, List.nil_append]

/-- C16: rendering leaves the object as it is, and rendering it again gives the same
text. `OutputToStream` and `PrintBacktrace` return the object with `trace_` and
`count_` as they were; the text either of them adds to a stream is the same on the
second call as on the first, whatever the stream held; and `GetBacktraceStrings`
gives the same lines and the same outcome when called again on the object. -/
theorem StackTrace_render_idempotent (B : Build) (U : Unwinder) (P : Platform)
    (self : StackTrace) (os1 os2 : List Char) :
    (StackTrace.OutputToStream B U P self os1).self = self ∧
    (StackTrace.PrintBacktrace B U P self os1).self = self ∧
    (∃ written : List Char,
      (StackTrace.OutputToStream B U P self os1).stream = os1 ++ written ∧
      (StackTrace.OutputToStream B U P
        (StackTrace.OutputToStream B U P self os1).self os2).stream = os2 ++ written) ∧
    (∃ written : List Char,
      (StackTrace.PrintBacktrace B U P self os1).stream = os1 ++ written ∧
      (StackTrace.PrintBacktrace B U P
        (StackTrace.PrintBacktrace B U P self os1).self os2).stream = os2 ++ written) ∧
    (∀ (trace_strings : List (List Char)) (error_message : Option (List Char)),
      GetBacktraceStrings B P (StackTrace.OutputToStream B U P self os1).self.trace_
          (StackTrace.OutputToStream B U P self os1).self.count_ trace_strings error_message =
        GetBacktraceStrings B P self.trace_ self.count_ trace_strings error_message) := by
  have h1 : (StackTrace.OutputToStream B U P self os1).self = self := by
    unfold StackTrace.OutputToStream
    split
    · rfl
    · split <;> rfl
  have h2 : (StackTrace.PrintBacktrace B U P self os1).self = self := by
    unfold StackTrace.PrintBacktrace
    split
    · rfl
    · split <;> rfl
  refine ⟨h1, h2, ?_, ?_, ?_⟩
  · obtain ⟨w, hw⟩ := StackTrace.OutputToStream_appends B U P self
    exact ⟨w, hw os1, by rw [h1]; exact hw os2⟩
  · obtain ⟨w, hw⟩ := StackTrace.PrintBacktrace_appends B U P self
    exact ⟨w, hw os1, by rw [h2]; exact hw os2⟩
  · intro ts em
    rw [h1]

end StackTracePosix
